import Mathlib

/-!
Shallow embedding of the toutago-fith-renderer template engine core
(lexer/parser AST, runtime evaluator, composition runtime, optimizer),
translated from the Go sources.

Modelling conventions:
* Go `interface{}` runtime values become the tagged union `Value`.
  Go `int`/`int64` are `vint : Int`; Go `float64`/`float32` are `vfloat : ℚ`
  (an exact-rational abstraction of the float payload; every claim below
  depends only on the *tag* of a float result, never on rounding).
* Go maps become association lists; map overwrite is modelled by
  `assocSet` (replace the binding for the key).  Every map the claims
  exercise is a Go `map[string]interface{}`, so `vmap` is keyed by
  `String`.  Go slice/array values are `vlist`.
* Source positions (`Position` fields) are error-reporting metadata and
  are dropped; error strings follow the Go `fmt.Errorf` formats with the
  `at line:column` prefixes and `%T`/`%d`/`%q` payloads omitted.
* Fallible Go functions returning `(T, error)` become `Except String T`;
  the stateful executors, which in Go mutate the receiver and return an
  `error`, return the final state *and* an optional error, so that
  state on the error path (scope pops, include-stack pops) is observable.
-/

namespace Fith

/-- Runtime value: the dynamic `interface{}` union the runtime operates on
(null, bool, int, float, string, slice, map). -/
inductive Value where
  | vnull
  | vbool (b : Bool)
  | vint (i : Int)
  | vfloat (q : ℚ)
  | vstr (s : String)
  | vlist (xs : List Value)
  | vmap (entries : List (String × Value))

/-- Tag test: is this value an integer-typed value? -/
def Value.isIntValue : Value → Bool
  | .vint _ => true
  | _ => false

/-- Tag test: is this value a float-typed value? -/
def Value.isFloatValue : Value → Bool
  | .vfloat _ => true
  | _ => false

/-- Association-list lookup (first binding wins), used for Go map reads. -/
def alookup {κ α : Type} [DecidableEq κ] : List (κ × α) → κ → Option α
  | [], _ => none
  | (k, v) :: rest, key => if k = key then some v else alookup rest key

/-- Association-list overwrite, used for Go map assignment `m[k] = v`. -/
def assocSet {κ α : Type} [DecidableEq κ] (m : List (κ × α)) (k : κ) (v : α) :
    List (κ × α) :=
  (k, v) :: m.filter (fun kv => kv.1 ≠ k)

/-- Lexer token types, restricted to the operator tokens the runtime
dispatches on (`lexer.TokenType`). -/
inductive TokenType where
  | tokenPlus | tokenMinus | tokenMult | tokenDiv | tokenMod
  | tokenEqual | tokenNotEqual | tokenLess | tokenGreater
  | tokenLessEq | tokenGreaterEq
  | tokenAnd | tokenOr | tokenNot
deriving DecidableEq, Repr

/-- AST nodes (`parser.Node` and its thirteen concrete structs).
`ifNode`'s else-branch is `Option (List Node)` because Go distinguishes a
nil `Else` slice from a non-nil one; `IncludeNode.Params` (a Go map) is an
association list; `LiteralNode.Value` is a `Value`. -/
inductive Node where
  | textNode (value : String)
  | variableNode (path : List String)
  | binaryOpNode (operator : TokenType) (left right : Node)
  | unaryOpNode (operator : TokenType) (operand : Node)
  | literalNode (value : Value)
  | indexNode (object index : Node)
  | callNode (function : String) (args : List Node)
  | pipeNode (value : Node) (filters : List String)
  | ifNode (condition : Node) (thenBody : List Node) (elseBody : Option (List Node))
  | rangeNode (loopVar keyVar : String) (collection : Node) (body : List Node)
  | includeNode (template : String) (params : List (String × Node)) (context : Option Node)
  | extendsNode (template : String)
  | blockNode (name : String) (body : List Node)

/-- The AST root (`parser.Template`). -/
structure Template where
  nodes : List Node

/-- Execution context (`runtime.Context`): root data plus a stack of local
scopes.  The innermost scope is the head of the list. -/
structure Context where
  data : Value
  scopes : List (List (String × Value))

/-- `runtime.NewContext`. -/
def NewContext (data : Value) : Context := ⟨data, []⟩

/-- Scope-stack lookup from innermost to outermost (the loops in
`Context.Get`). -/
def Context.lookupScope (c : Context) (name : String) : Option Value :=
  go c.scopes
where
  go : List (List (String × Value)) → Option Value
    | [] => none
    | s :: rest =>
      match alookup s name with
      | some v => some v
      | none => go rest

/-- `Context.getField`: struct/map field access.  Only map values carry
fields here; everything else (including nil) yields nil, as the Go
reflection fallthrough does. -/
def getField (obj : Value) (field : String) : Value :=
  match obj with
  | .vmap entries => (alookup entries field).getD .vnull
  | _ => .vnull

/-- Path traversal loop of `Context.Get`: walk the remaining segments,
erroring as soon as a step yields nil.  `seen` accumulates the prefix for
the error message (`strings.Join(path[:i+1], ".")`). -/
def traverseFields : Value → List String → List String → Except String Value
  | current, [], _ => .ok current
  | current, f :: rest, seen =>
    match getField current f with
    | .vnull =>
      .error ("nil value at path: " ++ String.intercalate "." (seen ++ [f]))
    | nxt => traverseFields nxt rest (seen ++ [f])

/-- `Context.Get`: resolve a dot path.  A leading "." starts from the
scope-redefined current value (falling back to the root data); any other
head is looked up in the scopes and is an error when absent. -/
def Context.Get (c : Context) (path : List String) : Except String Value :=
  match path with
  | [] => .error "empty path"
  | p0 :: rest =>
    if p0 = "." then
      traverseFields ((c.lookupScope ".").getD c.data) rest [p0]
    else
      match c.lookupScope p0 with
      | none => .error ("variable not found: " ++ p0)
      | some v => traverseFields v rest [p0]

/-- `Context.Set`: bind a name in the current (innermost) scope, pushing a
scope first when the stack is empty. -/
def Context.Set (c : Context) (name : String) (v : Value) : Context :=
  match c.scopes with
  | [] => { c with scopes := [assocSet [] name v] }
  | s :: rest => { c with scopes := assocSet s name v :: rest }

/-- `Context.PushScope`. -/
def Context.PushScope (c : Context) : Context :=
  { c with scopes := [] :: c.scopes }

/-- `Context.PopScope` (a no-op on an empty stack). -/
def Context.PopScope (c : Context) : Context :=
  { c with scopes := c.scopes.tail }

/-- `Context.GetIndex`: slice indexing (integer index, bounds-checked) or
map lookup (missing key yields nil, not an error). -/
def Context.GetIndex (obj index : Value) : Except String Value :=
  match obj with
  | .vnull => .error "cannot index nil value"
  | .vlist xs =>
    match index with
    | .vint i =>
      if i < 0 ∨ (xs.length : Int) ≤ i then .error "index out of bounds"
      else .ok (xs.getD i.toNat .vnull)
    | _ => .error "array/slice index must be integer"
  | .vmap entries =>
    match index with
    | .vstr s => .ok ((alookup entries s).getD .vnull)
    | _ => .ok .vnull
  | _ => .error "cannot index type"

/-- `runtime.IsTruthy`. -/
def IsTruthy : Value → Bool
  | .vnull => false
  | .vbool b => b
  | .vint i => i != 0
  | .vfloat q => q != 0
  | .vstr s => s != ""
  | .vlist xs => !xs.isEmpty
  | .vmap entries => !entries.isEmpty

/-- `runtime.ToSlice`: a slice value iterates as itself; everything else
is not slice-iterable. -/
def ToSlice : Value → Option (List Value)
  | .vlist xs => some xs
  | _ => none

/-- `runtime.ToMap`: a map value yields its keys and values in entry
order; everything else is not map-iterable. -/
def ToMap : Value → Option (List Value × List Value)
  | .vmap entries => some (entries.map (fun e => Value.vstr e.1), entries.map Prod.snd)
  | _ => none

/-- `runtime.toFloat`: numeric coercion to float (ints and floats). -/
def toFloat : Value → Option ℚ
  | .vint i => some (i : ℚ)
  | .vfloat q => some q
  | _ => none

/-- `runtime.toInt`: int/int64 only. -/
def toInt : Value → Option Int
  | .vint i => some i
  | _ => none

/-- `runtime.addValues`: numeric addition, preserving the int tag when
both operands are integral. -/
def addValues (a b : Value) : Except String Value :=
  match toFloat a, toFloat b with
  | some aN, some bN =>
    match toInt a, toInt b with
    | some aI, some bI => .ok (.vint (aI + bI))
    | _, _ => .ok (.vfloat (aN + bN))
  | _, _ => .error "cannot add"

/-- `runtime.subtractValues`. -/
def subtractValues (a b : Value) : Except String Value :=
  match toFloat a, toFloat b with
  | some aN, some bN =>
    match toInt a, toInt b with
    | some aI, some bI => .ok (.vint (aI - bI))
    | _, _ => .ok (.vfloat (aN - bN))
  | _, _ => .error "cannot subtract"

/-- `runtime.multiplyValues`. -/
def multiplyValues (a b : Value) : Except String Value :=
  match toFloat a, toFloat b with
  | some aN, some bN =>
    match toInt a, toInt b with
    | some aI, some bI => .ok (.vint (aI * bI))
    | _, _ => .ok (.vfloat (aN * bN))
  | _, _ => .error "cannot multiply"

/-- `runtime.divideValues`: note that the Go source divides the *float*
coercions unconditionally — there is no both-integers branch here. -/
def divideValues (a b : Value) : Except String Value :=
  match toFloat a, toFloat b with
  | some aN, some bN =>
    if bN = 0 then .error "division by zero"
    else .ok (.vfloat (aN / bN))
  | _, _ => .error "cannot divide"

/-- `runtime.modValues`: integers only; Go's `%` truncates toward zero
(`Int.tmod`). -/
def modValues (a b : Value) : Except String Value :=
  match toInt a, toInt b with
  | some aI, some bI =>
    if bI = 0 then .error "modulo by zero"
    else .ok (.vint (Int.tmod aI bI))
  | _, _ => .error "cannot mod"

/-- `runtime.negateValue`. -/
def negateValue (v : Value) : Except String Value :=
  match toFloat v with
  | some q =>
    match toInt v with
    | some i => .ok (.vint (-i))
    | none => .ok (.vfloat (-q))
  | none => .error "cannot negate"

mutual

/-- Model of `fmt.Sprint` on runtime values, used when the runtime writes
a value to the output buffer and by `compareEqual`/`compareLess`.
Non-integral float formatting is abstracted (no claim prints one). -/
def goString : Value → String
  | .vnull => "<nil>"
  | .vbool true => "true"
  | .vbool false => "false"
  | .vint i => toString i
  | .vfloat q =>
    if q.den = 1 then toString q.num
    else toString q.num ++ "/" ++ toString q.den
  | .vstr s => s
  | .vlist xs => "[" ++ goStringList xs ++ "]"
  | .vmap entries => "map[" ++ goStringEntries entries ++ "]"

/-- Space-separated element rendering for slice values. -/
def goStringList : List Value → String
  | [] => ""
  | [v] => goString v
  | v :: rest => goString v ++ " " ++ goStringList rest

/-- key:value rendering for map values. -/
def goStringEntries : List (String × Value) → String
  | [] => ""
  | [(k, v)] => k ++ ":" ++ goString v
  | (k, v) :: rest => k ++ ":" ++ goString v ++ " " ++ goStringEntries rest

end

/-- `runtime.compareEqual`: common string-form equality. -/
def compareEqual (a b : Value) : Bool :=
  goString a == goString b

/-- `runtime.compareLess`: numeric comparison when both operands coerce to
numbers, else lexical comparison of the printed forms. -/
def compareLess (a b : Value) : Bool :=
  match toFloat a, toFloat b with
  | some aN, some bN => decide (aN < bN)
  | _, _ => decide (goString a < goString b)

/-- The function registry seen by the runtime: `FunctionRegistry.Call`.
The bodies of built-in functions are external collaborators, so the
registry is a parameter of the evaluator. -/
def Funcs : Type := String → List Value → Except String Value

/-- `Runtime.applyBinaryOperator`: comparison, then logical, then
arithmetic dispatch (`tryComparisonOp` / `tryLogicalOp` /
`tryArithmeticOp`). -/
def applyBinaryOperator (op : TokenType) (left right : Value) :
    Except String Value :=
  match op with
  | .tokenEqual => .ok (.vbool (compareEqual left right))
  | .tokenNotEqual => .ok (.vbool (!compareEqual left right))
  | .tokenLess => .ok (.vbool (compareLess left right))
  | .tokenGreater => .ok (.vbool (compareLess right left))
  | .tokenLessEq => .ok (.vbool (!compareLess right left))
  | .tokenGreaterEq => .ok (.vbool (!compareLess left right))
  | .tokenAnd => .ok (.vbool (IsTruthy left && IsTruthy right))
  | .tokenOr => .ok (.vbool (IsTruthy left || IsTruthy right))
  | .tokenPlus => addValues left right
  | .tokenMinus => subtractValues left right
  | .tokenMult => multiplyValues left right
  | .tokenDiv => divideValues left right
  | .tokenMod => modValues left right
  | .tokenNot => .error "unsupported operator"

mutual

/-- `Runtime.evaluateExpression`: pure expression evaluation against a
context and a function registry.  A zero-argument call whose name starts
with the loop sigil is a context lookup; node kinds that are not
expressions are evaluation errors. -/
def evaluateExpression (F : Funcs) (c : Context) : Node → Except String Value
  | .variableNode path => c.Get path
  | .literalNode v => .ok v
  | .binaryOpNode op l r =>
    match evaluateExpression F c l with
    | .error e => .error e
    | .ok lv =>
      match evaluateExpression F c r with
      | .error e => .error e
      | .ok rv => applyBinaryOperator op lv rv
  | .unaryOpNode op o =>
    match evaluateExpression F c o with
    | .error e => .error e
    | .ok ov =>
      match op with
      | .tokenNot => .ok (.vbool (!IsTruthy ov))
      | .tokenMinus => negateValue ov
      | _ => .error "unsupported unary operator"
  | .indexNode obj idx =>
    match evaluateExpression F c obj with
    | .error e => .error e
    | .ok ov =>
      match evaluateExpression F c idx with
      | .error e => .error e
      | .ok iv => Context.GetIndex ov iv
  | .callNode fn args =>
    if args.isEmpty && fn != "" && fn.front == '@' then
      c.Get [fn]
    else
      match evaluateArgs F c args with
      | .error e => .error e
      | .ok vals => F fn vals
  | _ => .error "cannot evaluate node type"
termination_by n => (sizeOf n, 0)

/-- Left-to-right evaluation of call arguments. -/
def evaluateArgs (F : Funcs) (c : Context) : List Node → Except String (List Value)
  | [] => .ok []
  | a :: rest =>
    match evaluateExpression F c a with
    | .error e => .error e
    | .ok v =>
      match evaluateArgs F c rest with
      | .error e => .error e
      | .ok vs => .ok (v :: vs)
termination_by ns => (sizeOf ns, 0)

end

/-- The filter loop of `Runtime.executePipe`: thread the value through the
named filters, wrapping each failure. -/
def applyFilters (F : Funcs) : Value → List String → Except String Value
  | v, [] => .ok v
  | v, fname :: rest =>
    match F fname [v] with
    | .error e => .error ("filter error (" ++ fname ++ "): " ++ e)
    | .ok v2 => applyFilters F v2 rest

/-- Mutable state of a `runtime.Runtime`: the context and the output
buffer. -/
structure RTState where
  ctx : Context
  out : String

/-- A lexicographic-order helper for the termination proofs below. -/
theorem lex_of_le_of_lt {a b c d : Nat} (h1 : a ≤ b) (h2 : c < d) :
    Prod.Lex (· < ·) (· < ·) (a, c) (b, d) := by
  rcases Nat.lt_or_ge a b with h | h
  · exact Prod.Lex.left _ _ h
  · have hab : a = b := Nat.le_antisymm h1 h
    subst hab
    exact Prod.Lex.right _ h2

/-- `Runtime.executeVariable`: resolve the path and write the printed
value, wrapping resolution failures. -/
def executeVariable (st : RTState) (path : List String) :
    RTState × Option String :=
  match st.ctx.Get path with
  | .error e => (st, some ("variable error: " ++ e))
  | .ok v => ({ st with out := st.out ++ goString v }, none)

/-- The inline expression-statement handling of `Runtime.executeNode`
(BinaryOp/UnaryOp/Index cases): print the evaluated value, or propagate
the evaluation error unwrapped. -/
def outputResult (st : RTState) (res : Except String Value) :
    RTState × Option String :=
  match res with
  | .error e => (st, some e)
  | .ok v => ({ st with out := st.out ++ goString v }, none)

/-- `Runtime.executeCall`: a zero-argument sigil-led call is a loop-
variable lookup; otherwise evaluate the arguments left-to-right and
invoke the registry, wrapping each failure kind. -/
def executeCall (F : Funcs) (st : RTState) (fn : String) (args : List Node) :
    RTState × Option String :=
  if args.isEmpty && fn != "" && fn.front == '@' then
    match st.ctx.Get [fn] with
    | .error e => (st, some ("variable error: " ++ e))
    | .ok v => ({ st with out := st.out ++ goString v }, none)
  else
    match evaluateArgs F st.ctx args with
    | .error e => (st, some ("function argument error: " ++ e))
    | .ok vals =>
      match F fn vals with
      | .error e => (st, some ("function call error: " ++ e))
      | .ok res => ({ st with out := st.out ++ goString res }, none)

/-- `Runtime.executePipe`: evaluate the initial value, thread it through
the filters, print the final result. -/
def executePipe (F : Funcs) (st : RTState) (v : Node) (filters : List String) :
    RTState × Option String :=
  match evaluateExpression F st.ctx v with
  | .error e => (st, some ("pipe value error: " ++ e))
  | .ok v0 =>
    match applyFilters F v0 filters with
    | .error e => (st, some e)
    | .ok res => ({ st with out := st.out ++ goString res }, none)

mutual

/-- `Runtime.executeNode`: execute one node, appending to the output.
Composition nodes (include/extends/block) fall into the default case and
are unsupported here. -/
def executeNode (F : Funcs) (st : RTState) : Node → RTState × Option String
  | .textNode s => ({ st with out := st.out ++ s }, none)
  | .variableNode path => executeVariable st path
  | .ifNode cond thenB elseB => executeIf F st cond thenB elseB
  | .rangeNode _loopVar _keyVar coll body => executeRange F st coll body
  | .binaryOpNode op l r =>
    outputResult st (evaluateExpression F st.ctx (.binaryOpNode op l r))
  | .unaryOpNode op o =>
    outputResult st (evaluateExpression F st.ctx (.unaryOpNode op o))
  | .literalNode v => ({ st with out := st.out ++ goString v }, none)
  | .indexNode obj idx =>
    outputResult st (evaluateExpression F st.ctx (.indexNode obj idx))
  | .callNode fn args => executeCall F st fn args
  | .pipeNode v filters => executePipe F st v filters
  | _ => (st, some "unsupported node type")
termination_by n => (sizeOf n, 4)
decreasing_by all_goals
  (simp_wf
   first
   | (apply Prod.Lex.left
      omega)
   | exact lex_of_le_of_lt (by omega) (by omega))

/-- `Runtime.executeIf`: evaluate the condition, then dispatch on the
outcome. -/
def executeIf (F : Funcs) (st : RTState) (cond : Node) (thenB : List Node)
    (elseB : Option (List Node)) : RTState × Option String :=
  executeIfCond F st (evaluateExpression F st.ctx cond) thenB elseB
termination_by (1 + sizeOf cond + sizeOf thenB + sizeOf elseB, 3)
decreasing_by all_goals
  (simp_wf
   first
   | (apply Prod.Lex.left
      omega)
   | exact lex_of_le_of_lt (by omega) (by omega))

/-- Condition-outcome dispatch of `Runtime.executeIf`: failures are
wrapped; a value is tested for truthiness. -/
def executeIfCond (F : Funcs) (st : RTState) :
    Except String Value → List Node → Option (List Node) →
    RTState × Option String
  | .error e, _, _ => (st, some ("if condition error: " ++ e))
  | .ok condVal, thenB, elseB =>
    executeIfTruthy F st (IsTruthy condVal) thenB elseB
termination_by _ thenB elseB => (sizeOf thenB + sizeOf elseB, 2)
decreasing_by all_goals
  (simp_wf
   first
   | (apply Prod.Lex.left
      omega)
   | exact lex_of_le_of_lt (by omega) (by omega))

/-- Truthiness dispatch of `Runtime.executeIf`: a truthy condition runs
the then-body; a falsy one runs the else-body when present (a Go nil
else-slice executes nothing, without error). -/
def executeIfTruthy (F : Funcs) (st : RTState) :
    Bool → List Node → Option (List Node) → RTState × Option String
  | true, thenB, _ => executeNodes F st thenB
  | false, _, some es => executeNodes F st es
  | false, _, none => (st, none)
termination_by b thenB elseB => (sizeOf thenB + sizeOf elseB, 1)
decreasing_by all_goals
  (simp_wf
   first
   | (apply Prod.Lex.left
      omega)
   | exact lex_of_le_of_lt (by omega) (by omega))

/-- `Runtime.executeRange`: evaluate the collection, then dispatch on the
outcome. -/
def executeRange (F : Funcs) (st : RTState) (coll : Node) (body : List Node) :
    RTState × Option String :=
  executeRangeColl F st (evaluateExpression F st.ctx coll) body
termination_by (1 + sizeOf coll + sizeOf body, 3)
decreasing_by all_goals
  (simp_wf
   first
   | (apply Prod.Lex.left
      omega)
   | exact lex_of_le_of_lt (by omega) (by omega))

/-- Collection-outcome dispatch of `Runtime.executeRange`. -/
def executeRangeColl (F : Funcs) (st : RTState) :
    Except String Value → List Node → RTState × Option String
  | .error e, _ => (st, some ("range collection error: " ++ e))
  | .ok collVal, body =>
    executeRangeIter F st (ToSlice collVal) (ToMap collVal) body
termination_by _ body => (1 + sizeOf body, 2)
decreasing_by all_goals
  (simp_wf
   first
   | (apply Prod.Lex.left
      omega)
   | exact lex_of_le_of_lt (by omega) (by omega))

/-- Iteration dispatch of `Runtime.executeRange`: a slice iterates by
position, else a map by entries, else the value is not iterable. -/
def executeRangeIter (F : Funcs) (st : RTState) :
    Option (List Value) → Option (List Value × List Value) → List Node →
    RTState × Option String
  | some items, _, body => executeRangeSlice F st body items 0 items.length
  | none, some kvs, body =>
    executeRangeMap F st body kvs.1 kvs.2 0 kvs.1.length
  | none, none, _ => (st, some "range error: value is not iterable")
termination_by _ _ body => (1 + sizeOf body, 1)
decreasing_by all_goals
  (simp_wf
   first
   | (apply Prod.Lex.left
      omega)
   | exact lex_of_le_of_lt (by omega) (by omega))

/-- The node loop of `Runtime.executeTemplate` and of the if/range
bodies: execute nodes in order, stopping at the first error. -/
def executeNodes (F : Funcs) (st : RTState) : List Node → RTState × Option String
  | [] => (st, none)
  | n :: rest =>
    match executeNode F st n with
    | (st1, none) => executeNodes F st1 rest
    | (st1, some e) => (st1, some e)
termination_by ns => (sizeOf ns, 0)
decreasing_by all_goals
  (simp_wf
   first
   | (apply Prod.Lex.left
      omega)
   | exact lex_of_le_of_lt (by omega) (by omega))

/-- `Runtime.executeRangeSlice`: iterate a slice, pushing a fresh scope
per iteration with the element and the loop-context bindings, popping it
when the body completes — also on the error path. -/
def executeRangeSlice (F : Funcs) (st : RTState) (body : List Node) :
    List Value → Nat → Nat → RTState × Option String
  | [], _, _ => (st, none)
  | item :: rest, idx, total =>
    let c1 := st.ctx.PushScope
    let c2 := ((c1.Set "." item).Set "@index" (.vint idx)).Set
        "@first" (.vbool (idx == 0))
    let c3 := c2.Set "@last" (.vbool (idx == total - 1))
    match executeNodes F { st with ctx := c3 } body with
    | (st1, none) =>
      executeRangeSlice F { st1 with ctx := st1.ctx.PopScope } body rest
        (idx + 1) total
    | (st1, some e) => ({ st1 with ctx := st1.ctx.PopScope }, some e)
termination_by items _ _ => (sizeOf body, items.length)
decreasing_by all_goals
  (simp_wf
   first
   | (apply Prod.Lex.left
      omega)
   | exact lex_of_le_of_lt (by omega) (by omega))

/-- `Runtime.executeRangeMap`: iterate a map's keys/values with the
additional `@key` binding. -/
def executeRangeMap (F : Funcs) (st : RTState) (body : List Node) :
    List Value → List Value → Nat → Nat → RTState × Option String
  | key :: krest, v :: vrest, idx, total =>
    let c1 := st.ctx.PushScope
    let c2 := (((c1.Set "." v).Set "@key" key).Set "@index" (.vint idx)).Set
        "@first" (.vbool (idx == 0))
    let c3 := c2.Set "@last" (.vbool (idx == total - 1))
    match executeNodes F { st with ctx := c3 } body with
    | (st1, none) =>
      executeRangeMap F { st1 with ctx := st1.ctx.PopScope } body krest vrest
        (idx + 1) total
    | (st1, some e) => ({ st1 with ctx := st1.ctx.PopScope }, some e)
  | _, _, _, _ => (st, none)
termination_by keys _ _ _ => (sizeOf body, keys.length)
decreasing_by all_goals
  (simp_wf
   first
   | (apply Prod.Lex.left
      omega)
   | exact lex_of_le_of_lt (by omega) (by omega))

end

/-- `Runtime.executeTemplate` / `Runtime.ExecuteTemplate`: execute all the
template's nodes (the path `Engine.Render` uses after compiling). -/
def ExecuteTemplate (F : Funcs) (st : RTState) (tmpl : Template) :
    RTState × Option String :=
  executeNodes F st tmpl.nodes

/-! ### Compiler optimizer (`compiler/optimizer.go`) -/

/-- `Optimizer.isConstantBool`: a literal boolean condition. -/
def isConstantBool : Node → Option Bool
  | .literalNode (.vbool b) => some b
  | _ => none

mutual

/-- `Optimizer.optimizeNode`: returns `none` when the node is eliminated
(Go returns a nil `parser.Node`). -/
def optimizeNode : Node → Option Node
  | .textNode s => some (.textNode s)
  | .variableNode p => some (.variableNode p)
  | .ifNode c t e => optimizeIf c t e
  | .rangeNode v k coll body => some (optimizeRange v k coll body)
  | .includeNode t ps cx => some (.includeNode t ps cx)
  | .extendsNode t => some (.extendsNode t)
  | .blockNode name body => some (optimizeBlock name body)
  | n => some n
termination_by n => (sizeOf n, 2)

/-- `Optimizer.optimizeIf`: test the condition for a literal boolean,
then fold accordingly. -/
def optimizeIf (cond : Node) (thenB : List Node) (elseB : Option (List Node)) :
    Option Node :=
  optimizeIfConst (isConstantBool cond) cond thenB elseB
termination_by (1 + sizeOf cond + sizeOf thenB + sizeOf elseB, 1)

/-- The body of `Optimizer.optimizeIf` after the `isConstantBool` test:
a literal-true condition collapses to the then-branch (inlined when it is
a single node, else with the else-branch dropped); a literal-false
condition collapses to the else-branch (inlined when single, eliminated
when absent or empty); a non-constant condition keeps the If with both
branches optimized (a nil Go else-slice stays nil). -/
def optimizeIfConst :
    Option Bool → Node → List Node → Option (List Node) → Option Node
  | some true, _, [single], _ => optimizeNode single
  | some true, cond, [], _ => some (.ifNode cond (optimizeNodes []) none)
  | some true, cond, x :: y :: rest, _ =>
    some (.ifNode cond (optimizeNodes (x :: y :: rest)) none)
  | some false, _, _, some [single] => optimizeNode single
  | some false, _, _, some (x :: y :: rest) =>
    some (.ifNode (.literalNode (.vbool false)) []
      (some (optimizeNodes (x :: y :: rest))))
  | some false, _, _, some [] => none
  | some false, _, _, none => none
  | none, cond, thenB, some es =>
    some (.ifNode cond (optimizeNodes thenB) (some (optimizeNodes es)))
  | none, cond, thenB, none => some (.ifNode cond (optimizeNodes thenB) none)
termination_by _ cond thenB elseB =>
  (1 + sizeOf cond + sizeOf thenB + sizeOf elseB, 0)

/-- `Optimizer.optimizeRange`: optimize the loop body. -/
def optimizeRange (v k : String) (coll : Node) (body : List Node) : Node :=
  .rangeNode v k coll (optimizeNodes body)
termination_by (sizeOf body, 1)

/-- `Optimizer.optimizeBlock`: optimize the default body. -/
def optimizeBlock (name : String) (body : List Node) : Node :=
  .blockNode name (optimizeNodes body)
termination_by (sizeOf body, 1)

/-- `Optimizer.optimizeNodes`: optimize a node list, dropping eliminated
nodes. -/
def optimizeNodes : List Node → List Node
  | [] => []
  | n :: rest =>
    match optimizeNode n with
    | some m => m :: optimizeNodes rest
    | none => optimizeNodes rest
termination_by ns => (sizeOf ns, 0)

end

/-- `Optimizer.Optimize`: optimize every top-level node of the template,
dropping eliminated ones. -/
def Optimize (tmpl : Template) : Template :=
  ⟨optimizeNodes tmpl.nodes⟩

/-! ### Composition runtime (`runtime/composition.go`) -/

/-- The `runtime.Loader` interface: `Load` yields the parsed template or
an error (modelled as `none`). -/
def Loader : Type := String → Option Template

/-- Outcome of a composition-runtime step: normal completion, a runtime
error, or exhaustion of the evaluation fuel (the Go code has no fuel; a
`fuelOut`-free result is one the Go runtime reaches in finitely many
steps). -/
inductive ExecOut where
  | done
  | fail (msg : String)
  | fuelOut
deriving DecidableEq, Repr

/-- Mutable state of a `runtime.CompositionRuntime`: the embedded
`Runtime`'s context and output plus the block-override table, the include
stack (top at the end, as the Go slice appends), and the depth limit. -/
structure CompState where
  ctx : Context
  out : String
  blocks : List (String × List Node)
  includeStack : List String
  maxIncludeDepth : Nat

/-- `runtime.NewCompositionRuntime`: fresh state with an empty block
table, an empty include stack and the hardcoded depth limit 100. -/
def NewCompositionRuntime (ctx : Context) : CompState :=
  ⟨ctx, "", [], [], 100⟩

/-- `runtime.isWhitespace`. -/
def isWhitespace (s : String) : Bool :=
  s.all fun c => c == ' ' || c == '\t' || c == '\n' || c == '\r'

/-- `CompositionRuntime.findExtendsNode`: the extends target, provided
extends is the first node after leading whitespace-only text. -/
def findExtendsNode : List Node → Option String
  | [] => none
  | .textNode s :: rest =>
    if isWhitespace s then findExtendsNode rest else none
  | .extendsNode t :: _ => some t
  | _ :: _ => none

/-- `CompositionRuntime.collectBlocks`: record every top-level block body
in the override table (map assignment overwrites). -/
def collectBlocks (nodes : List Node) (blocks : List (String × List Node)) :
    List (String × List Node) :=
  match nodes with
  | [] => blocks
  | .blockNode name body :: rest => collectBlocks rest (assocSet blocks name body)
  | _ :: rest => collectBlocks rest blocks

/-- The parameter-evaluation loop of `createIncludeContext`: parameters
whose expressions fail to evaluate are skipped. -/
def buildParams (F : Funcs) (c : Context) :
    List (String × Node) → List (String × Value)
  | [] => []
  | (k, vn) :: rest =>
    match evaluateExpression F c vn with
    | .error _ => buildParams F c rest
    | .ok v => (k, v) :: buildParams F c rest

/-- `CompositionRuntime.createIncludeContext`: an explicit context
expression replaces the root value (falling back to the current context
when its evaluation fails); otherwise named parameters build a fresh
mapping context; otherwise the current context is inherited. -/
def createIncludeContext (F : Funcs) (c : Context)
    (params : List (String × Node)) (contextE : Option Node) : Context :=
  match contextE with
  | some e =>
    match evaluateExpression F c e with
    | .error _ => c
    | .ok v => NewContext v
  | none =>
    if params.isEmpty then c
    else NewContext (.vmap (buildParams F c params))

mutual

/-- `CompositionRuntime.executeNode`: handle composition nodes, delegate
everything else to the embedded base `Runtime.executeNode` (which, being
a plain method call in Go, also executes any *nested* nodes itself). -/
def compExecuteNode (F : Funcs) (L : Loader) :
    Nat → CompState → Node → CompState × ExecOut
  | 0, st, _ => (st, .fuelOut)
  | fuel + 1, st, n =>
    match n with
    | .includeNode name ps cx => executeInclude F L fuel st name ps cx
    | .blockNode name body => executeBlock F L fuel st name body
    | .extendsNode _ => (st, .done)
    | _ =>
      match executeNode F ⟨st.ctx, st.out⟩ n with
      | (rst, none) => ({ st with ctx := rst.ctx, out := rst.out }, .done)
      | (rst, some e) => ({ st with ctx := rst.ctx, out := rst.out }, .fail e)
termination_by fuel _ _ => (fuel, 2)

/-- `CompositionRuntime.executeInclude`: circular check, depth check,
load, push, run under the include context, pop and restore on return
(the Go defers fire on the error path too). -/
def executeInclude (F : Funcs) (L : Loader) :
    Nat → CompState → String → List (String × Node) → Option Node →
    CompState × ExecOut
  | fuel, st, name, ps, cx =>
    if st.includeStack.contains name then
      (st, .fail ("circular include detected: " ++ name))
    else if st.maxIncludeDepth ≤ st.includeStack.length then
      (st, .fail "maximum include depth exceeded")
    else
      match L name with
      | none => (st, .fail ("failed to load include " ++ name))
      | some tmpl =>
        let includeCtx := createIncludeContext F st.ctx ps cx
        let savedCtx := st.ctx
        let st1 :=
          { st with includeStack := st.includeStack ++ [name], ctx := includeCtx }
        match compExecuteNodes F L fuel st1 tmpl.nodes with
        | (st2, r) =>
          ({ st2 with includeStack := st2.includeStack.dropLast, ctx := savedCtx },
            r)
termination_by fuel _ _ _ _ => (fuel, 1)

/-- `CompositionRuntime.executeBlock`: run the override body when the
table has one for this name, else the default body. -/
def executeBlock (F : Funcs) (L : Loader) :
    Nat → CompState → String → List Node → CompState × ExecOut
  | fuel, st, name, body =>
    match alookup st.blocks name with
    | some overrideBody => compExecuteNodes F L fuel st overrideBody
    | none => compExecuteNodes F L fuel st body
termination_by fuel _ _ _ => (fuel, 1)

/-- The node loop of `ExecuteWithLoader` / `executeInclude`: run nodes in
order through the composition dispatcher, stopping at the first error. -/
def compExecuteNodes (F : Funcs) (L : Loader) :
    Nat → CompState → List Node → CompState × ExecOut
  | 0, st, _ => (st, .fuelOut)
  | _ + 1, st, [] => (st, .done)
  | fuel + 1, st, n :: rest =>
    match compExecuteNode F L fuel st n with
    | (st1, .done) => compExecuteNodes F L fuel st1 rest
    | (st1, r) => (st1, r)
termination_by fuel _ _ => (fuel, 0)

end

/-- `CompositionRuntime.executeWithExtends`: collect the child's blocks,
load the parent, recurse upward while the parent itself extends, then
execute the resolved ancestor's nodes with the accumulated override
table. -/
def executeWithExtends (F : Funcs) (L : Loader) :
    Nat → CompState → List Node → String → CompState × ExecOut
  | 0, st, _, _ => (st, .fuelOut)
  | fuel + 1, st, childNodes, parentName =>
    let st1 := { st with blocks := collectBlocks childNodes st.blocks }
    match L parentName with
    | none => (st1, .fail ("failed to load parent template " ++ parentName))
    | some parent =>
      match findExtendsNode parent.nodes with
      | some grand => executeWithExtends F L fuel st1 parent.nodes grand
      | none => compExecuteNodes F L fuel st1 parent.nodes

/-- `runtime.ExecuteWithLoader`: fresh composition state; dispatch on
whether the template's first significant node is an extends directive. -/
def ExecuteWithLoader (F : Funcs) (L : Loader) (fuel : Nat) (tmpl : Template)
    (ctx : Context) : CompState × ExecOut :=
  let st := NewCompositionRuntime ctx
  match findExtendsNode tmpl.nodes with
  | some parentName => executeWithExtends F L fuel st tmpl.nodes parentName
  | none => compExecuteNodes F L fuel st tmpl.nodes

/-! ### Scenario definitions used by the verification theorems -/

/-- A registry with no registered functions: every call fails. -/
def F0 : Funcs := fun _ _ => .error "unknown function"

/-- Loader for the include-context scenario: one template named "inc"
rendering the text "T". -/
def incLoader : Loader :=
  fun s => if s = "inc" then some ⟨[.textNode "T"]⟩ else none

/-- The template
`\x7b\x7bif true\x7d\x7d\x7b\x7bif false\x7d\x7dA\x7b\x7bend\x7d\x7dB\x7b\x7bend\x7d\x7d`:
a constant-true If whose two-node then-branch contains a constant-false
If that one optimizer pass eliminates, leaving a single-node branch that
a second pass inlines further. -/
def nestedConstIf : Template :=
  ⟨[.ifNode (.literalNode (.vbool true))
      [.ifNode (.literalNode (.vbool false)) [.textNode "A"] none, .textNode "B"]
      none]⟩

/-- Loader for the circular-include scenario: template "a" includes "b"
and "b" includes "a". -/
def mutualLoader : Loader := fun s =>
  if s = "a" then some ⟨[.includeNode "b" [] none]⟩
  else if s = "b" then some ⟨[.includeNode "a" [] none]⟩
  else none

/-- The loader serves a strictly linear include chain through the given
(nonempty) name list: each template includes the next, the last renders
the text "x". -/
def chainServes (L : Loader) : List String → Prop
  | [] => True
  | [last] => L last = some ⟨[.textNode "x"]⟩
  | n1 :: n2 :: rest =>
    L n1 = some ⟨[.includeNode n2 [] none]⟩ ∧ chainServes L (n2 :: rest)

/-- Loader serving the concrete two-template linear chain: "a" includes
"b" and "b" renders the text "x". -/
def linearLoader : Loader := fun s =>
  if s = "a" then some ⟨[.includeNode "b" [] none]⟩
  else if s = "b" then some ⟨[.textNode "x"]⟩
  else none

/-- Inheritance scenario: a parent template declaring two blocks with
default bodies. -/
def parentTwoBlocks (A B : String) : Template :=
  ⟨[.blockNode "a" [.textNode A], .blockNode "b" [.textNode B]]⟩

/-- Inheritance scenario: a child extending "p" and overriding exactly
one block. -/
def childOverriding (name O : String) : Template :=
  ⟨[.extendsNode "p", .blockNode name [.textNode O]]⟩

/-- Loader mapping "p" to the two-block parent. -/
def parentLoader (A B : String) : Loader :=
  fun s => if s = "p" then some (parentTwoBlocks A B) else none

/-- Loader for chained inheritance: "mid" extends "p" and declares no
blocks; "p" is the two-block parent. -/
def chainedLoader (A B : String) : Loader := fun s =>
  if s = "mid" then some ⟨[.extendsNode "p"]⟩
  else if s = "p" then some (parentTwoBlocks A B) else none

/-- Scope-isolation scenario context: `Items = ["a","b","c"]`. -/
def itemsContext : Context :=
  NewContext (.vmap [("Items", .vlist [.vstr "a", .vstr "b", .vstr "c"])])

/-- The parse of
`\x7b\x7brange .Items\x7d\x7d\x7b\x7b@index\x7d\x7d:\x7b\x7b.\x7d\x7d \x7b\x7bend\x7d\x7d`:
the loop-variable fields are left at their zero value by the parser, and
`@index` parses as a zero-argument call. -/
def rangeItemsTemplate : Template :=
  ⟨[.rangeNode "" "" (.variableNode [".", "Items"])
    [.callNode "@index" [], .textNode ":", .variableNode ["."], .textNode " "]]⟩

/-- Execute the result of an optimization that may have eliminated the
node (an eliminated node contributes nothing to the render). -/
def executeOptional (F : Funcs) (st : RTState) :
    Option Node → RTState × Option String
  | some m => executeNode F st m
  | none => (st, none)

mutual

/-- No If node reachable by the optimizer's traversal has a
literal-boolean condition. -/
def nodeConstIfFree : Node → Bool
  | .ifNode c t e =>
    (isConstantBool c).isNone && nodesConstIfFree t &&
      (match e with
       | some es => nodesConstIfFree es
       | none => true)
  | .rangeNode _ _ _ b => nodesConstIfFree b
  | .blockNode _ b => nodesConstIfFree b
  | _ => true
termination_by n => (sizeOf n, 1)

/-- List version of `nodeConstIfFree`. -/
def nodesConstIfFree : List Node → Bool
  | [] => true
  | n :: rest => nodeConstIfFree n && nodesConstIfFree rest
termination_by ns => (sizeOf ns, 0)

end

/-! ### Verification theorems -/

/-- Helper: executing a singleton node list is executing the node. -/
theorem executeNodes_singleton (F : Funcs) (st : RTState) (n : Node) :
    executeNodes F st [n] = executeNode F st n := by
  simp only [executeNodes]
  rcases executeNode F st n with ⟨st1, e⟩
  cases e <;> simp [executeNodes]

/-- Helper: a literal-boolean test succeeds only on boolean literals. -/
theorem isConstantBool_eq_some {c : Node} {b : Bool}
    (h : isConstantBool c = some b) : c = .literalNode (.vbool b) := by
  cases c with
  | literalNode v =>
    cases v <;> simp [isConstantBool] at h
    subst h; rfl
  | _ => simp [isConstantBool] at h

/-- C2 counterexample: dividing the integer 6 by the integer 2 — both
operands integral, divisor nonzero — yields a float-tagged value, not an
integer-typed result, both at the `divideValues` helper and through
`evaluateExpression` on the BinaryOp node. -/
theorem C2_counterexample :
    divideValues (.vint 6) (.vint 2) = .ok (.vfloat 3) ∧
    Value.isIntValue (.vfloat 3) = false ∧
    evaluateExpression F0 (NewContext .vnull)
      (.binaryOpNode .tokenDiv (.literalNode (.vint 6)) (.literalNode (.vint 2))) =
      .ok (.vfloat 3) := by
  refine ⟨?_, rfl, ?_⟩ <;>
    · simp [evaluateExpression, applyBinaryOperator, divideValues, toFloat]
      norm_num

/-- C2 (amended): `+ - * %` preserve the integer result type when both
operands are integers (with a nonzero right operand for `%`), and a float
operand promotes the result to float; `/`, however, always produces a
float-typed result, even on two integers. -/
theorem C2_arithmetic_typing (a b : Int) :
    addValues (.vint a) (.vint b) = .ok (.vint (a + b)) ∧
    subtractValues (.vint a) (.vint b) = .ok (.vint (a - b)) ∧
    multiplyValues (.vint a) (.vint b) = .ok (.vint (a * b)) ∧
    (b ≠ 0 → modValues (.vint a) (.vint b) = .ok (.vint (Int.tmod a b))) ∧
    (b ≠ 0 →
      divideValues (.vint a) (.vint b) = .ok (.vfloat ((a : ℚ) / (b : ℚ)))) ∧
    (∀ q : ℚ, addValues (.vint a) (.vfloat q) = .ok (.vfloat ((a : ℚ) + q))) := by
  refine ⟨by simp [addValues, toFloat, toInt],
    by simp [subtractValues, toFloat, toInt],
    by simp [multiplyValues, toFloat, toInt], ?_, ?_, ?_⟩
  · intro h; simp [modValues, toInt, h]
  · intro h; simp [divideValues, toFloat, Int.cast_eq_zero, h]
  · intro q; simp [addValues, toFloat, toInt]

theorem C2_arithmetic_typing_witness :
    (7 : Int) ≠ 0 ∧
    modValues (.vint 22) (.vint 7) = .ok (.vint (Int.tmod 22 7)) ∧
    divideValues (.vint 22) (.vint 7) = .ok (.vfloat ((22 : ℚ) / (7 : ℚ))) :=
  ⟨by norm_num, ((C2_arithmetic_typing 22 7).2.2.2.1 (by norm_num)),
    ((C2_arithmetic_typing 22 7).2.2.2.2.1 (by norm_num))⟩

/-- C4: with the default configuration (StrictMode false is never
consulted anywhere in the runtime), executing a Variable node whose path
does not resolve returns an error instead of rendering empty output: the
runtime has no non-strict path. -/
theorem C4_unresolved_variable_always_errors :
    executeNode F0 ⟨NewContext (.vmap []), ""⟩ (.variableNode [".", "Missing"]) =
      (⟨NewContext (.vmap []), ""⟩,
        some "variable error: nil value at path: ..Missing") := by
  simp [executeNode, executeVariable, NewContext, Context.Get,
    Context.lookupScope, Context.lookupScope.go, traverseFields, getField,
    alookup]
  rfl

/-- C10 counterexample: a template *containing* an Include node inside
the never-taken branch of a constant-false If executes through the base
runtime without any error, so "executing any template containing an
Include node always returns an unsupported-node-type error" is false as
stated. -/
theorem C10_counterexample :
    ExecuteTemplate F0 ⟨NewContext .vnull, ""⟩
      ⟨[.ifNode (.literalNode (.vbool false)) [.includeNode "x" [] none] none]⟩ =
      (⟨NewContext .vnull, ""⟩, none) := by
  simp [ExecuteTemplate, executeNodes, executeNode, executeIf, executeIfCond,
    executeIfTruthy, evaluateExpression, IsTruthy]

/-- C10 (amended): the base runtime's node executor handles no
composition node: invoked on an Include, Extends, or Block node it always
returns the unsupported-node-type error, whatever the state, and a
template whose execution reaches such a node (here: one starting with
one) fails with that error through `ExecuteTemplate`, the path
`Engine.Render` uses. -/
theorem C10_base_runtime_rejects_composition (F : Funcs) (st : RTState)
    (iname ename bname : String) (ps : List (String × Node)) (cx : Option Node)
    (body rest : List Node) :
    executeNode F st (.includeNode iname ps cx) =
      (st, some "unsupported node type") ∧
    executeNode F st (.extendsNode ename) = (st, some "unsupported node type") ∧
    executeNode F st (.blockNode bname body) =
      (st, some "unsupported node type") ∧
    ExecuteTemplate F st ⟨.includeNode iname ps cx :: rest⟩ =
      (st, some "unsupported node type") := by
  refine ⟨?_, ?_, ?_, ?_⟩ <;>
    simp [ExecuteTemplate, executeNodes, executeNode]

/-- C3 counterexample: on `nestedConstIf` one optimizer pass yields a
constant-true If with the single then-node `Text "B"`, and a second pass
inlines that node, so `Optimize (Optimize t)` differs from `Optimize t`:
the pass is not idempotent. -/
theorem C3_counterexample :
    Optimize (Optimize nestedConstIf) ≠ Optimize nestedConstIf ∧
    Optimize nestedConstIf =
      ⟨[.ifNode (.literalNode (.vbool true)) [.textNode "B"] none]⟩ ∧
    Optimize (Optimize nestedConstIf) = ⟨[.textNode "B"]⟩ := by
  refine ⟨?_, ?_, ?_⟩ <;>
    simp [nestedConstIf, Optimize, optimizeNodes, optimizeNode, optimizeIf,
      optimizeIfConst, isConstantBool]

mutual

/-- On constant-If-free nodes, the optimizer is the identity. -/
theorem optimizeNode_id_of_free (n : Node) (h : nodeConstIfFree n = true) :
    optimizeNode n = some n := by
  match n with
  | .textNode s => simp [optimizeNode]
  | .variableNode p => simp [optimizeNode]
  | .binaryOpNode op l r => simp [optimizeNode]
  | .unaryOpNode op o => simp [optimizeNode]
  | .literalNode v => simp [optimizeNode]
  | .indexNode o i => simp [optimizeNode]
  | .callNode f a => simp [optimizeNode]
  | .pipeNode v fs => simp [optimizeNode]
  | .includeNode t ps cx => simp [optimizeNode]
  | .extendsNode t => simp [optimizeNode]
  | .ifNode c t (some es) =>
    simp only [nodeConstIfFree, Bool.and_eq_true, Option.isNone_iff_eq_none] at h
    simp [optimizeNode, optimizeIf, optimizeIfConst, h.1.1,
      optimizeNodes_id_of_free t h.1.2, optimizeNodes_id_of_free es h.2]
  | .ifNode c t none =>
    simp only [nodeConstIfFree, Bool.and_eq_true, Option.isNone_iff_eq_none] at h
    simp [optimizeNode, optimizeIf, optimizeIfConst, h.1.1,
      optimizeNodes_id_of_free t h.1.2]
  | .rangeNode v k coll b =>
    simp only [nodeConstIfFree] at h
    simp [optimizeNode, optimizeRange, optimizeNodes_id_of_free b h]
  | .blockNode name b =>
    simp only [nodeConstIfFree] at h
    simp [optimizeNode, optimizeBlock, optimizeNodes_id_of_free b h]
termination_by (sizeOf n, 1)

/-- On constant-If-free node lists, the optimizer is the identity. -/
theorem optimizeNodes_id_of_free (ns : List Node)
    (h : nodesConstIfFree ns = true) : optimizeNodes ns = ns := by
  match ns with
  | [] => simp [optimizeNodes]
  | n :: rest =>
    simp only [nodesConstIfFree, Bool.and_eq_true] at h
    simp [optimizeNodes, optimizeNode_id_of_free n h.1,
      optimizeNodes_id_of_free rest h.2]
termination_by (sizeOf ns, 0)

end

/-- C3 (amended): the optimization pass is idempotent on every template
containing no If node with a literal-boolean condition along the
optimizer's traversal (on such templates it is the identity); in general
a second pass can simplify further, so unrestricted idempotence fails
(see the counterexample). -/
theorem C3_idempotent_on_const_free (t : Template)
    (h : nodesConstIfFree t.nodes = true) :
    Optimize (Optimize t) = Optimize t ∧ Optimize t = t := by
  have hid : Optimize t = t := by
    obtain ⟨ns⟩ := t
    simp only [Optimize]
    simp [optimizeNodes_id_of_free ns h]
  exact ⟨by rw [hid]; exact hid, hid⟩

theorem C3_idempotent_on_const_free_witness :
    nodesConstIfFree [Node.textNode "w"] = true ∧
    Optimize (Optimize ⟨[Node.textNode "w"]⟩) = Optimize ⟨[Node.textNode "w"]⟩ :=
  ⟨by simp [nodesConstIfFree, nodeConstIfFree],
    (C3_idempotent_on_const_free ⟨[Node.textNode "w"]⟩
      (by simp [nodesConstIfFree, nodeConstIfFree])).1⟩

/-- Context preservation for `executeVariable`. -/
theorem executeVariable_ctx_preserved (st : RTState) (path : List String) :
    ((executeVariable st path).1).ctx = st.ctx := by
  simp only [executeVariable]
  rcases h : st.ctx.Get path with e | v <;> simp [h]

/-- Context preservation for `outputResult`. -/
theorem outputResult_ctx_preserved (st : RTState) (res : Except String Value) :
    ((outputResult st res).1).ctx = st.ctx := by
  rcases res with e | v <;> simp [outputResult]

/-- Context preservation for `executeCall`. -/
theorem executeCall_ctx_preserved (F : Funcs) (st : RTState) (fn : String)
    (args : List Node) : ((executeCall F st fn args).1).ctx = st.ctx := by
  simp only [executeCall]
  split
  · rcases h : st.ctx.Get [fn] with e | v <;> simp [h]
  · rcases h1 : evaluateArgs F st.ctx args with e | vals
    · simp [h1]
    · rcases h2 : F fn vals with e | res <;> simp [h1, h2]

/-- Context preservation for `executePipe`. -/
theorem executePipe_ctx_preserved (F : Funcs) (st : RTState) (v : Node)
    (filters : List String) : ((executePipe F st v filters).1).ctx = st.ctx := by
  simp only [executePipe]
  rcases h : evaluateExpression F st.ctx v with e | v0
  · simp [h]
  · rcases h2 : applyFilters F v0 filters with e | res <;> simp [h, h2]

mutual

/-- Every base-runtime node execution leaves the context (root data and
the whole scope stack) exactly as it found it, on success and on error. -/
theorem executeNode_ctx_preserved (F : Funcs) (st : RTState) (n : Node) :
    ((executeNode F st n).1).ctx = st.ctx := by
  match n with
  | .textNode s => simp [executeNode]
  | .variableNode p =>
    simp only [executeNode]
    exact executeVariable_ctx_preserved st p
  | .ifNode c t e =>
    simp only [executeNode]
    exact executeIf_ctx_preserved F st c t e
  | .rangeNode lv kv coll body =>
    simp only [executeNode]
    exact executeRange_ctx_preserved F st coll body
  | .binaryOpNode op l r =>
    simp only [executeNode]
    exact outputResult_ctx_preserved st _
  | .unaryOpNode op o =>
    simp only [executeNode]
    exact outputResult_ctx_preserved st _
  | .literalNode v => simp [executeNode]
  | .indexNode o i =>
    simp only [executeNode]
    exact outputResult_ctx_preserved st _
  | .callNode fn args =>
    simp only [executeNode]
    exact executeCall_ctx_preserved F st fn args
  | .pipeNode v fs =>
    simp only [executeNode]
    exact executePipe_ctx_preserved F st v fs
  | .includeNode t ps cx => simp [executeNode]
  | .extendsNode t => simp [executeNode]
  | .blockNode name b => simp [executeNode]
termination_by (sizeOf n, 4)
decreasing_by all_goals
  (simp_wf
   first
   | (apply Prod.Lex.left
      omega)
   | exact lex_of_le_of_lt (by omega) (by omega))

/-- Context preservation for `executeIf`. -/
theorem executeIf_ctx_preserved (F : Funcs) (st : RTState) (cond : Node)
    (thenB : List Node) (elseB : Option (List Node)) :
    ((executeIf F st cond thenB elseB).1).ctx = st.ctx := by
  simp only [executeIf]
  exact executeIfCond_ctx_preserved F st _ thenB elseB
termination_by (1 + sizeOf cond + sizeOf thenB + sizeOf elseB, 3)
decreasing_by all_goals
  (simp_wf
   first
   | (apply Prod.Lex.left
      omega)
   | exact lex_of_le_of_lt (by omega) (by omega))

/-- Context preservation for `executeIfCond`. -/
theorem executeIfCond_ctx_preserved (F : Funcs) (st : RTState)
    (res : Except String Value) (thenB : List Node)
    (elseB : Option (List Node)) :
    ((executeIfCond F st res thenB elseB).1).ctx = st.ctx := by
  match res with
  | .error e => simp [executeIfCond]
  | .ok cv =>
    simp only [executeIfCond]
    exact executeIfTruthy_ctx_preserved F st (IsTruthy cv) thenB elseB
termination_by (sizeOf thenB + sizeOf elseB, 2)
decreasing_by all_goals
  (simp_wf
   first
   | (apply Prod.Lex.left
      omega)
   | exact lex_of_le_of_lt (by omega) (by omega))

/-- Context preservation for `executeIfTruthy`. -/
theorem executeIfTruthy_ctx_preserved (F : Funcs) (st : RTState) (b : Bool)
    (thenB : List Node) (elseB : Option (List Node)) :
    ((executeIfTruthy F st b thenB elseB).1).ctx = st.ctx := by
  match b, elseB with
  | true, e =>
    simp only [executeIfTruthy]
    exact executeNodes_ctx_preserved F st thenB
  | false, some es =>
    simp only [executeIfTruthy]
    exact executeNodes_ctx_preserved F st es
  | false, none => simp [executeIfTruthy]
termination_by (sizeOf thenB + sizeOf elseB, 1)
decreasing_by all_goals
  (simp_wf
   first
   | (apply Prod.Lex.left
      omega)
   | exact lex_of_le_of_lt (by omega) (by omega))

/-- Context preservation for `executeRange`. -/
theorem executeRange_ctx_preserved (F : Funcs) (st : RTState) (coll : Node)
    (body : List Node) : ((executeRange F st coll body).1).ctx = st.ctx := by
  simp only [executeRange]
  exact executeRangeColl_ctx_preserved F st _ body
termination_by (1 + sizeOf coll + sizeOf body, 3)
decreasing_by all_goals
  (simp_wf
   first
   | (apply Prod.Lex.left
      omega)
   | exact lex_of_le_of_lt (by omega) (by omega))

/-- Context preservation for `executeRangeColl`. -/
theorem executeRangeColl_ctx_preserved (F : Funcs) (st : RTState)
    (res : Except String Value) (body : List Node) :
    ((executeRangeColl F st res body).1).ctx = st.ctx := by
  match res with
  | .error e => simp [executeRangeColl]
  | .ok cv =>
    simp only [executeRangeColl]
    exact executeRangeIter_ctx_preserved F st (ToSlice cv) (ToMap cv) body
termination_by (1 + sizeOf body, 2)
decreasing_by all_goals
  (simp_wf
   first
   | (apply Prod.Lex.left
      omega)
   | exact lex_of_le_of_lt (by omega) (by omega))

/-- Context preservation for `executeRangeIter`. -/
theorem executeRangeIter_ctx_preserved (F : Funcs) (st : RTState)
    (s? : Option (List Value)) (m? : Option (List Value × List Value))
    (body : List Node) : ((executeRangeIter F st s? m? body).1).ctx = st.ctx := by
  match s?, m? with
  | some items, m =>
    simp only [executeRangeIter]
    exact executeRangeSlice_ctx_preserved F st body items 0 items.length
  | none, some kvs =>
    simp only [executeRangeIter]
    exact executeRangeMap_ctx_preserved F st body kvs.1 kvs.2 0 kvs.1.length
  | none, none => simp [executeRangeIter]
termination_by (1 + sizeOf body, 1)
decreasing_by all_goals
  (simp_wf
   first
   | (apply Prod.Lex.left
      omega)
   | exact lex_of_le_of_lt (by omega) (by omega))

/-- List version of `executeNode_ctx_preserved`. -/
theorem executeNodes_ctx_preserved (F : Funcs) (st : RTState) (ns : List Node) :
    ((executeNodes F st ns).1).ctx = st.ctx := by
  match ns with
  | [] => simp [executeNodes]
  | n :: rest =>
    simp only [executeNodes]
    rcases hn : executeNode F st n with ⟨st1, e⟩
    have h1 : st1.ctx = st.ctx := by
      simpa [hn] using executeNode_ctx_preserved F st n
    cases e with
    | none =>
      simpa using (executeNodes_ctx_preserved F st1 rest).trans h1
    | some msg => simpa using h1
termination_by (sizeOf ns, 0)
decreasing_by all_goals
  (simp_wf
   first
   | (apply Prod.Lex.left
      omega)
   | exact lex_of_le_of_lt (by omega) (by omega))

/-- Slice-range version: each iteration's pushed scope is popped before
the loop continues or returns, on success and on error. -/
theorem executeRangeSlice_ctx_preserved (F : Funcs) (st : RTState)
    (body : List Node) (items : List Value) (idx total : Nat) :
    ((executeRangeSlice F st body items idx total).1).ctx = st.ctx := by
  match items with
  | [] => simp [executeRangeSlice]
  | item :: rest =>
    obtain ⟨⟨d, scs⟩, outS⟩ := st
    simp only [executeRangeSlice, Context.PushScope, Context.Set]
    have hnodes := executeNodes_ctx_preserved F
      ⟨⟨d, assocSet (assocSet (assocSet (assocSet [] "." item) "@index"
          (Value.vint idx)) "@first" (Value.vbool (idx == 0))) "@last"
          (Value.vbool (idx == total - 1)) :: scs⟩, outS⟩ body
    split
    · next st1 hb =>
      rw [hb] at hnodes
      simp only [Prod.fst] at hnodes
      have hrec := executeRangeSlice_ctx_preserved F
        { st1 with ctx := st1.ctx.PopScope } body rest (idx + 1) total
      refine hrec.trans ?_
      simp [Context.PopScope, hnodes]
    · next st1 e hb =>
      rw [hb] at hnodes
      simp only [Prod.fst] at hnodes
      simp [Context.PopScope, hnodes]
termination_by (sizeOf body, items.length)
decreasing_by all_goals
  (simp_wf
   first
   | (apply Prod.Lex.left
      omega)
   | exact lex_of_le_of_lt (by omega) (by omega))

/-- Map-range version of the scope-restoration invariant. -/
theorem executeRangeMap_ctx_preserved (F : Funcs) (st : RTState)
    (body : List Node) (keys vals : List Value) (idx total : Nat) :
    ((executeRangeMap F st body keys vals idx total).1).ctx = st.ctx := by
  match keys, vals with
  | [], _ => simp [executeRangeMap]
  | key :: krest, [] => simp [executeRangeMap]
  | key :: krest, v :: vrest =>
    obtain ⟨⟨d, scs⟩, outS⟩ := st
    simp only [executeRangeMap, Context.PushScope, Context.Set]
    have hnodes := executeNodes_ctx_preserved F
      ⟨⟨d, assocSet (assocSet (assocSet (assocSet (assocSet [] "." v) "@key"
          key) "@index" (Value.vint idx)) "@first" (Value.vbool (idx == 0)))
          "@last" (Value.vbool (idx == total - 1)) :: scs⟩, outS⟩ body
    split
    · next st1 hb =>
      rw [hb] at hnodes
      simp only [Prod.fst] at hnodes
      have hrec := executeRangeMap_ctx_preserved F
        { st1 with ctx := st1.ctx.PopScope } body krest vrest (idx + 1) total
      refine hrec.trans ?_
      simp [Context.PopScope, hnodes]
    · next st1 e hb =>
      rw [hb] at hnodes
      simp only [Prod.fst] at hnodes
      simp [Context.PopScope, hnodes]
termination_by (sizeOf body, keys.length)
decreasing_by all_goals
  (simp_wf
   first
   | (apply Prod.Lex.left
      omega)
   | exact lex_of_le_of_lt (by omega) (by omega))

end

/-- Evaluation helper: the loop sigil check on the concrete name used in
the scope-isolation scenario. -/
theorem front_at_index : "@index".front = '@' := by rfl

/-- C9: every base-runtime execution step — in particular every Range
evaluation — leaves the Context exactly as it found it (root data and the
whole scope stack), whether the body completes normally or with an error;
and rendering the range scenario template over Items = ["a","b","c"]
yields exactly "0:a 1:b 2:c " with the context restored, so after the
range "." resolves to the pre-loop value. -/
theorem C9_range_scope_isolation :
    (∀ (F : Funcs) (st : RTState) (n : Node),
      ((executeNode F st n).1).ctx = st.ctx) ∧
    ExecuteTemplate F0 ⟨itemsContext, ""⟩ rangeItemsTemplate =
      (⟨itemsContext, "0:a 1:b 2:c "⟩, none) := by
  refine ⟨fun F st n => executeNode_ctx_preserved F st n, ?_⟩
  simp [ExecuteTemplate, rangeItemsTemplate, itemsContext, NewContext,
    executeNodes, executeNode, executeRange, executeRangeColl,
    executeRangeIter, executeRangeSlice, executeVariable, executeCall,
    evaluateExpression, Context.Get, Context.lookupScope,
    Context.lookupScope.go, alookup, traverseFields, getField, ToSlice, ToMap,
    Context.Set, Context.PushScope, Context.PopScope, assocSet, goString,
    IsTruthy, front_at_index]
  rfl

/-- C1 counterexample: an Include whose explicit context expression fails
to evaluate (`.variableNode ["missing"]` resolves to an error, second
conjunct) does not fail the render: the included template is executed
with the silently inherited context and the render succeeds (first
conjunct), contradicting the claim that the error surfaces to the
caller. -/
theorem C1_counterexample :
    compExecuteNode F0 incLoader 10 (NewCompositionRuntime (NewContext .vnull))
      (.includeNode "inc" [] (some (.variableNode ["missing"]))) =
      ({ NewCompositionRuntime (NewContext .vnull) with out := "T" }, .done) ∧
    evaluateExpression F0 (NewCompositionRuntime (NewContext .vnull)).ctx
      (.variableNode ["missing"]) = .error "variable not found: missing" := by
  constructor
  · simp [compExecuteNode, executeInclude, incLoader, NewCompositionRuntime,
      createIncludeContext, evaluateExpression, Context.Get,
      Context.lookupScope, Context.lookupScope.go, NewContext,
      compExecuteNodes, executeNode, List.dropLast]
  · simp [evaluateExpression, Context.Get, Context.lookupScope,
      Context.lookupScope.go, NewCompositionRuntime, NewContext]

/-- C1 (amended): errors in include-context construction never surface.
An Include whose explicit context expression fails to evaluate behaves
exactly like an Include with no context expression and no parameters
(the context is silently inherited); an Include whose first named
parameter fails to evaluate behaves exactly like the same Include without
that parameter (the parameter is silently skipped), as long as some
parameter remains so that a fresh parameter context is still built. -/
theorem C1_include_context_errors_swallowed :
    (∀ (F : Funcs) (L : Loader) (fuel : Nat) (st : CompState) (name : String)
        (ps : List (String × Node)) (e : Node) (msg : String),
      evaluateExpression F st.ctx e = .error msg →
      compExecuteNode F L fuel st (.includeNode name ps (some e)) =
        compExecuteNode F L fuel st (.includeNode name [] none)) ∧
    (∀ (F : Funcs) (L : Loader) (fuel : Nat) (st : CompState) (name k : String)
        (bad : Node) (msg : String) (ps : List (String × Node)),
      evaluateExpression F st.ctx bad = .error msg → ps ≠ [] →
      compExecuteNode F L fuel st (.includeNode name ((k, bad) :: ps) none) =
        compExecuteNode F L fuel st (.includeNode name ps none)) := by
  constructor
  · intro F L fuel st name ps e msg h
    cases fuel with
    | zero => simp [compExecuteNode]
    | succ f =>
      simp only [compExecuteNode]
      simp [executeInclude, createIncludeContext, h]
  · intro F L fuel st name k bad msg ps h hne
    have hps : ps.isEmpty = false := by
      cases ps with
      | nil => exact absurd rfl hne
      | cons a l => rfl
    cases fuel with
    | zero => simp [compExecuteNode]
    | succ f =>
      simp only [compExecuteNode]
      simp [executeInclude, createIncludeContext, buildParams, h, hps]

theorem C1_include_context_errors_swallowed_witness :
    evaluateExpression F0 (NewCompositionRuntime (NewContext .vnull)).ctx
      (.variableNode ["missing"]) = .error "variable not found: missing" ∧
    ([("q", Node.literalNode (.vint 1))] ≠ ([] : List (String × Node))) ∧
    compExecuteNode F0 incLoader 10 (NewCompositionRuntime (NewContext .vnull))
        (.includeNode "inc" [] (some (.variableNode ["missing"]))) =
      compExecuteNode F0 incLoader 10 (NewCompositionRuntime (NewContext .vnull))
        (.includeNode "inc" [] none) ∧
    compExecuteNode F0 incLoader 10 (NewCompositionRuntime (NewContext .vnull))
        (.includeNode "inc"
          [("p", .variableNode ["missing"]), ("q", .literalNode (.vint 1))] none) =
      compExecuteNode F0 incLoader 10 (NewCompositionRuntime (NewContext .vnull))
        (.includeNode "inc" [("q", .literalNode (.vint 1))] none) := by
  have hev : evaluateExpression F0 (NewCompositionRuntime (NewContext .vnull)).ctx
      (.variableNode ["missing"]) = .error "variable not found: missing" := by
    simp [evaluateExpression, Context.Get, Context.lookupScope,
      Context.lookupScope.go, NewCompositionRuntime, NewContext]
  refine ⟨hev, by simp, ?_, ?_⟩
  · exact C1_include_context_errors_swallowed.1 F0 incLoader 10
      (NewCompositionRuntime (NewContext .vnull)) "inc" [] _ _ hev
  · exact C1_include_context_errors_swallowed.2 F0 incLoader 10
      (NewCompositionRuntime (NewContext .vnull)) "inc" "p" _ _
      [("q", .literalNode (.vint 1))] hev (by simp)

mutual

/-- Optimizer soundness: executing the (possibly eliminated) optimized
node is the same as executing the original node, in any state. -/
theorem optimizeNode_sound (F : Funcs) (n : Node) :
    ∀ st : RTState, executeOptional F st (optimizeNode n) = executeNode F st n := by
  match n with
  | .textNode s => intro st; simp [optimizeNode, executeOptional]
  | .variableNode p => intro st; simp [optimizeNode, executeOptional]
  | .binaryOpNode op l r => intro st; simp [optimizeNode, executeOptional]
  | .unaryOpNode op o => intro st; simp [optimizeNode, executeOptional]
  | .literalNode v => intro st; simp [optimizeNode, executeOptional]
  | .indexNode o i => intro st; simp [optimizeNode, executeOptional]
  | .callNode f a => intro st; simp [optimizeNode, executeOptional]
  | .pipeNode v fs => intro st; simp [optimizeNode, executeOptional]
  | .includeNode t ps cx => intro st; simp [optimizeNode, executeOptional]
  | .extendsNode t => intro st; simp [optimizeNode, executeOptional]
  | .blockNode name b =>
    intro st
    simp [optimizeNode, optimizeBlock, executeOptional, executeNode]
  | .rangeNode v k coll b =>
    intro st
    simp only [optimizeNode, optimizeRange, executeOptional, executeNode,
      executeRange]
    cases hres : evaluateExpression F st.ctx coll with
    | error e => simp [executeRangeColl]
    | ok cv =>
      simp only [executeRangeColl]
      cases hS : ToSlice cv with
      | some items =>
        simp only [executeRangeIter]
        exact optimizeRangeSlice_sound F b items st 0 items.length
      | none =>
        cases hM : ToMap cv with
        | some kvs =>
          simp only [executeRangeIter]
          exact optimizeRangeMap_sound F b kvs.1 kvs.2 st 0 kvs.1.length
        | none => simp [executeRangeIter]
  | .ifNode c t e =>
    intro st
    simp only [optimizeNode, optimizeIf]
    cases hc : isConstantBool c with
    | none =>
      cases e with
      | none =>
        simp only [optimizeIfConst, executeOptional, executeNode, executeIf]
        cases hres : evaluateExpression F st.ctx c with
        | error msg => simp [executeIfCond]
        | ok cv =>
          simp only [executeIfCond]
          cases hT : IsTruthy cv with
          | true => simp [executeIfTruthy, optimizeNodes_sound F t]
          | false => simp [executeIfTruthy]
      | some es =>
        simp only [optimizeIfConst, executeOptional, executeNode, executeIf]
        cases hres : evaluateExpression F st.ctx c with
        | error msg => simp [executeIfCond]
        | ok cv =>
          simp only [executeIfCond]
          cases hT : IsTruthy cv with
          | true => simp [executeIfTruthy, optimizeNodes_sound F t]
          | false => simp [executeIfTruthy, optimizeNodes_sound F es]
    | some bv =>
      have hc' := isConstantBool_eq_some hc
      subst hc'
      cases bv with
      | true =>
        match t with
        | [single] =>
          simp only [optimizeIfConst]
          rw [optimizeNode_sound F single st]
          simp [executeNode, executeIf, evaluateExpression, executeIfCond,
            IsTruthy, executeIfTruthy, executeNodes_singleton]
        | [] =>
          simp [optimizeIfConst, executeOptional, executeNode, executeIf,
            evaluateExpression, executeIfCond, IsTruthy, executeIfTruthy,
            optimizeNodes]
        | x :: y :: rest =>
          simp [optimizeIfConst, executeOptional, executeNode, executeIf,
            evaluateExpression, executeIfCond, IsTruthy, executeIfTruthy,
            optimizeNodes_sound F (x :: y :: rest)]
      | false =>
        match e with
        | none =>
          simp [optimizeIfConst, executeOptional, executeNode, executeIf,
            evaluateExpression, executeIfCond, IsTruthy, executeIfTruthy]
        | some [] =>
          simp [optimizeIfConst, executeOptional, executeNode, executeIf,
            evaluateExpression, executeIfCond, IsTruthy, executeIfTruthy,
            executeNodes]
        | some [single] =>
          simp only [optimizeIfConst]
          rw [optimizeNode_sound F single st]
          simp [executeNode, executeIf, evaluateExpression, executeIfCond,
            IsTruthy, executeIfTruthy, executeNodes_singleton]
        | some (x :: y :: rest) =>
          simp [optimizeIfConst, executeOptional, executeNode, executeIf,
            evaluateExpression, executeIfCond, IsTruthy, executeIfTruthy,
            optimizeNodes_sound F (x :: y :: rest)]
termination_by (sizeOf n, 2)
decreasing_by all_goals
  (simp_wf
   first
   | (apply Prod.Lex.left
      omega)
   | exact lex_of_le_of_lt (by omega) (by omega))

/-- List version of optimizer soundness. -/
theorem optimizeNodes_sound (F : Funcs) (ns : List Node) :
    ∀ st : RTState,
      executeNodes F st (optimizeNodes ns) = executeNodes F st ns := by
  match ns with
  | [] => intro st; simp [optimizeNodes]
  | n :: rest =>
    intro st
    simp only [optimizeNodes]
    cases hm : optimizeNode n with
    | some m =>
      have hP := optimizeNode_sound F n st
      rw [hm] at hP
      simp only [executeOptional] at hP
      simp only [executeNodes]
      rw [hP]
      rcases hx : executeNode F st n with ⟨st1, e⟩
      cases e with
      | none => simpa using optimizeNodes_sound F rest st1
      | some msg => simp
    | none =>
      have hP := optimizeNode_sound F n st
      rw [hm] at hP
      simp only [executeOptional] at hP
      simp only [executeNodes]
      rw [← hP]
      exact optimizeNodes_sound F rest st
termination_by (sizeOf ns, 0)
decreasing_by all_goals
  (simp_wf
   first
   | (apply Prod.Lex.left
      omega)
   | exact lex_of_le_of_lt (by omega) (by omega))

/-- Slice-loop version of optimizer soundness. -/
theorem optimizeRangeSlice_sound (F : Funcs) (body : List Node)
    (items : List Value) :
    ∀ (st : RTState) (idx total : Nat),
      executeRangeSlice F st (optimizeNodes body) items idx total =
        executeRangeSlice F st body items idx total := by
  match items with
  | [] => intro st idx total; simp [executeRangeSlice]
  | item :: rest =>
    intro st idx total
    simp only [executeRangeSlice, optimizeNodes_sound F body,
      optimizeRangeSlice_sound F body rest]
termination_by (sizeOf body, items.length + 1)
decreasing_by all_goals
  (simp_wf
   first
   | (apply Prod.Lex.left
      omega)
   | exact lex_of_le_of_lt (by omega) (by omega))

/-- Map-loop version of optimizer soundness. -/
theorem optimizeRangeMap_sound (F : Funcs) (body : List Node)
    (keys vals : List Value) :
    ∀ (st : RTState) (idx total : Nat),
      executeRangeMap F st (optimizeNodes body) keys vals idx total =
        executeRangeMap F st body keys vals idx total := by
  match keys, vals with
  | [], v => intro st idx total; simp [executeRangeMap]
  | key :: krest, [] => intro st idx total; simp [executeRangeMap]
  | key :: krest, v :: vrest =>
    intro st idx total
    simp only [executeRangeMap, optimizeNodes_sound F body,
      optimizeRangeMap_sound F body krest vrest]
termination_by (sizeOf body, keys.length + 1)
decreasing_by all_goals
  (simp_wf
   first
   | (apply Prod.Lex.left
      omega)
   | exact lex_of_le_of_lt (by omega) (by omega))

end

/-- C6: constant folding of literal-boolean If conditions never errors
and is render-equivalent to the taken branch: with a literal-true
condition the optimized result renders exactly as the then-branch (in
any state, with the else-branch dead); with a literal-false condition
and no else-branch the If optimizes to no node at all, and the template
with a constant-false If around text "A" optimizes to zero nodes, whose
execution is empty output without error. -/
theorem C6_constant_folding :
    (∀ (F : Funcs) (st : RTState) (c : Node) (t : List Node)
        (e : Option (List Node)),
      isConstantBool c = some true →
      executeOptional F st (optimizeIf c t e) = executeNodes F st t) ∧
    (∀ (c : Node) (t : List Node),
      isConstantBool c = some false → optimizeIf c t none = none) ∧
    (∀ A : String,
      Optimize ⟨[.ifNode (.literalNode (.vbool false)) [.textNode A] none]⟩ =
        ⟨([] : List Node)⟩) ∧
    (∀ (F : Funcs) (st : RTState), executeNodes F st [] = (st, none)) := by
  refine ⟨?_, ?_, ?_, ?_⟩
  · intro F st c t e hc
    have hsound := optimizeNode_sound F (.ifNode c t e) st
    simp only [optimizeNode] at hsound
    rw [hsound]
    have hc' := isConstantBool_eq_some hc
    subst hc'
    simp [executeNode, executeIf, evaluateExpression, executeIfCond, IsTruthy,
      executeIfTruthy]
  · intro c t hc
    simp [optimizeIf, hc, optimizeIfConst]
  · intro A
    simp [Optimize, optimizeNodes, optimizeNode, optimizeIf, isConstantBool,
      optimizeIfConst]
  · intro F st
    simp [executeNodes]

theorem C6_constant_folding_witness :
    isConstantBool (.literalNode (.vbool true)) = some true ∧
    isConstantBool (.literalNode (.vbool false)) = some false ∧
    executeOptional F0 ⟨NewContext .vnull, ""⟩
        (optimizeIf (.literalNode (.vbool true)) [.textNode "A"]
          (some [.textNode "B"])) =
      executeNodes F0 ⟨NewContext .vnull, ""⟩ [.textNode "A"] ∧
    optimizeIf (.literalNode (.vbool false)) [.textNode "A"] none = none :=
  ⟨rfl, rfl,
    C6_constant_folding.1 F0 ⟨NewContext .vnull, ""⟩ _ _ _ rfl,
    C6_constant_folding.2.1 _ [.textNode "A"] rfl⟩

/-- The base-runtime delegation branch of the composition dispatcher
never touches the include stack. -/
theorem delegate_preserves_stack (F : Funcs) (st : CompState) (n : Node) :
    ((match executeNode F ⟨st.ctx, st.out⟩ n with
      | (rst, none) =>
        ({ st with ctx := rst.ctx, out := rst.out }, ExecOut.done)
      | (rst, some e) =>
        ({ st with ctx := rst.ctx, out := rst.out }, ExecOut.fail e)).1).includeStack
      = st.includeStack := by
  rcases executeNode F ⟨st.ctx, st.out⟩ n with ⟨rst, e⟩
  cases e <;> simp

mutual

/-- The include stack is restored by every composition-runtime step, on
success, on error, and on fuel exhaustion. -/
theorem compExecuteNode_stack_preserved (F : Funcs) (L : Loader) (fuel : Nat)
    (st : CompState) (n : Node) :
    ((compExecuteNode F L fuel st n).1).includeStack = st.includeStack := by
  match fuel with
  | 0 => simp [compExecuteNode]
  | fuel + 1 =>
    cases n with
    | includeNode name ps cx =>
      simp only [compExecuteNode]
      exact executeInclude_stack_preserved F L fuel st name ps cx
    | blockNode name body =>
      simp only [compExecuteNode]
      exact executeBlock_stack_preserved F L fuel st name body
    | extendsNode t => simp [compExecuteNode]
    | textNode s =>
      simp only [compExecuteNode]
      exact delegate_preserves_stack F st (.textNode s)
    | variableNode p =>
      simp only [compExecuteNode]
      exact delegate_preserves_stack F st (.variableNode p)
    | binaryOpNode op l r =>
      simp only [compExecuteNode]
      exact delegate_preserves_stack F st (.binaryOpNode op l r)
    | unaryOpNode op o =>
      simp only [compExecuteNode]
      exact delegate_preserves_stack F st (.unaryOpNode op o)
    | literalNode v =>
      simp only [compExecuteNode]
      exact delegate_preserves_stack F st (.literalNode v)
    | indexNode o i =>
      simp only [compExecuteNode]
      exact delegate_preserves_stack F st (.indexNode o i)
    | callNode fn args =>
      simp only [compExecuteNode]
      exact delegate_preserves_stack F st (.callNode fn args)
    | pipeNode v fs =>
      simp only [compExecuteNode]
      exact delegate_preserves_stack F st (.pipeNode v fs)
    | ifNode c t e =>
      simp only [compExecuteNode]
      exact delegate_preserves_stack F st (.ifNode c t e)
    | rangeNode lv kv coll body =>
      simp only [compExecuteNode]
      exact delegate_preserves_stack F st (.rangeNode lv kv coll body)
termination_by (fuel, 2)

/-- `executeInclude` pushes the target name and pops it on return — also
on the error path (the Go defer). -/
theorem executeInclude_stack_preserved (F : Funcs) (L : Loader) (fuel : Nat)
    (st : CompState) (name : String) (ps : List (String × Node))
    (cx : Option Node) :
    ((executeInclude F L fuel st name ps cx).1).includeStack =
      st.includeStack := by
  simp only [executeInclude]
  split
  · simp
  · split
    · simp
    · cases hL : L name with
      | none => simp [hL]
      | some tmpl =>
        simp only [hL]
        have h2 := compExecuteNodes_stack_preserved F L fuel
          { st with includeStack := st.includeStack ++ [name], ctx := createIncludeContext F st.ctx ps cx } tmpl.nodes
        rcases hx : compExecuteNodes F L fuel
          { st with includeStack := st.includeStack ++ [name], ctx := createIncludeContext F st.ctx ps cx } tmpl.nodes with ⟨st2, r⟩
        rw [hx] at h2
        simp only [Prod.fst] at h2
        simp [h2, List.dropLast_concat]
termination_by (fuel, 1)

/-- `executeBlock` leaves the include stack unchanged. -/
theorem executeBlock_stack_preserved (F : Funcs) (L : Loader) (fuel : Nat)
    (st : CompState) (name : String) (body : List Node) :
    ((executeBlock F L fuel st name body).1).includeStack =
      st.includeStack := by
  simp only [executeBlock]
  cases halo : alookup st.blocks name with
  | some ob => exact compExecuteNodes_stack_preserved F L fuel st ob
  | none => exact compExecuteNodes_stack_preserved F L fuel st body
termination_by (fuel, 1)

/-- List version of the include-stack restoration invariant. -/
theorem compExecuteNodes_stack_preserved (F : Funcs) (L : Loader) (fuel : Nat)
    (st : CompState) (ns : List Node) :
    ((compExecuteNodes F L fuel st ns).1).includeStack = st.includeStack := by
  match fuel, ns with
  | 0, _ => simp [compExecuteNodes]
  | fuel + 1, [] => simp [compExecuteNodes]
  | fuel + 1, n :: rest =>
    simp only [compExecuteNodes]
    have h1 := compExecuteNode_stack_preserved F L fuel st n
    rcases hx : compExecuteNode F L fuel st n with ⟨st1, r⟩
    rw [hx] at h1
    simp only [Prod.fst] at h1
    cases r with
    | done =>
      simpa using (compExecuteNodes_stack_preserved F L fuel st1 rest).trans h1
    | fail msg => simpa using h1
    | fuelOut => simpa using h1
termination_by (fuel, 0)

end

/-- C7: an Include whose target is already on the include stack fails
immediately as a circular include naming that template — for every
loader, so before any load or execution of the target (first conjunct);
the include stack is restored by every composition step, including the
error path (second conjunct); and evaluating the mutually-including
templates a/b terminates with the circular-include error for every
sufficient fuel, with the state fully restored (third conjunct). -/
theorem C7_circular_include_detection :
    (∀ (F : Funcs) (L : Loader) (fuel : Nat) (st : CompState) (name : String)
        (ps : List (String × Node)) (cx : Option Node),
      st.includeStack.contains name = true →
      compExecuteNode F L (fuel + 1) st (.includeNode name ps cx) =
        (st, .fail ("circular include detected: " ++ name))) ∧
    (∀ (F : Funcs) (L : Loader) (fuel : Nat) (st : CompState) (n : Node),
      ((compExecuteNode F L fuel st n).1).includeStack = st.includeStack) ∧
    (∀ (F : Funcs) (fuel : Nat) (ctx : Context), 5 ≤ fuel →
      compExecuteNode F mutualLoader fuel (NewCompositionRuntime ctx)
        (.includeNode "a" [] none) =
        (NewCompositionRuntime ctx, .fail "circular include detected: a")) := by
  refine ⟨?_, ?_, ?_⟩
  · intro F L fuel st name ps cx h
    have hmem : name ∈ st.includeStack := by simpa using h
    simp only [compExecuteNode]
    simp [executeInclude, hmem]
  · intro F L fuel st n
    exact compExecuteNode_stack_preserved F L fuel st n
  · intro F fuel ctx hfuel
    obtain ⟨f, rfl⟩ : ∃ f, fuel = f + 5 := ⟨fuel - 5, by omega⟩
    simp [compExecuteNode, executeInclude, compExecuteNodes, mutualLoader,
      NewCompositionRuntime, createIncludeContext, List.dropLast]

theorem C7_circular_include_detection_witness :
    ((["a"] : List String).contains "a" = true) ∧
    compExecuteNode F0 incLoader (3 + 1)
        ⟨NewContext .vnull, "", [], ["a"], 100⟩ (.includeNode "a" [] none) =
      (⟨NewContext .vnull, "", [], ["a"], 100⟩,
        .fail ("circular include detected: " ++ "a")) ∧
    (5 ≤ 5) ∧
    compExecuteNode F0 mutualLoader 5 (NewCompositionRuntime (NewContext .vnull))
        (.includeNode "a" [] none) =
      (NewCompositionRuntime (NewContext .vnull),
        .fail "circular include detected: a") :=
  ⟨by simp,
    C7_circular_include_detection.1 F0 incLoader 3
      ⟨NewContext .vnull, "", [], ["a"], 100⟩ "a" [] none (by simp),
    by omega,
    C7_circular_include_detection.2.2 F0 5 (NewContext .vnull) (by omega)⟩

/-- Base case of the linear-chain analysis: including the last template
of a chain either appends its text (when one more stack entry fits the
limit) or fails with the depth error, leaving the state untouched. -/
theorem includeChain_base (F : Funcs) (L : Loader) (n1 : String)
    (ctx0 : Context) (out0 : String) (blocks0 : List (String × List Node))
    (stack0 : List String) (max0 : Nat) (f : Nat)
    (hserve : L n1 = some ⟨[.textNode "x"]⟩)
    (hmem1 : n1 ∉ stack0) :
    compExecuteNode F L (f + 4) ⟨ctx0, out0, blocks0, stack0, max0⟩
      (.includeNode n1 [] none) =
      (if 1 + stack0.length ≤ max0
       then (⟨ctx0, out0 ++ "x", blocks0, stack0, max0⟩, .done)
       else (⟨ctx0, out0, blocks0, stack0, max0⟩,
         .fail "maximum include depth exceeded")) := by
  by_cases hd : max0 ≤ stack0.length
  · rw [if_neg (by omega)]
    simp [compExecuteNode, executeInclude, hmem1, hd]
  · rw [if_pos (by omega)]
    simp [compExecuteNode, executeInclude, compExecuteNodes, hmem1, hd,
      hserve, createIncludeContext, executeNode, List.dropLast_concat]

/-- Step case of the linear-chain analysis: a link of the chain pushes
its name, runs the rest of the chain one level deeper, and pops it on
return — so the whole behaviour is again the depth-boundary test, with
the chain one longer. -/
theorem includeChain_step (F : Funcs) (L : Loader) (n1 n2 : String)
    (restLen : Nat)
    (ctx0 : Context) (out0 : String) (blocks0 : List (String × List Node))
    (stack0 : List String) (max0 : Nat) (g : Nat)
    (hserve : L n1 = some ⟨[.includeNode n2 [] none]⟩)
    (hmem1 : n1 ∉ stack0)
    (hIH : compExecuteNode F L (g + 1)
        ⟨ctx0, out0, blocks0, stack0 ++ [n1], max0⟩
        (.includeNode n2 [] none) =
      (if (restLen + 1) + (stack0 ++ [n1]).length ≤ max0
       then (⟨ctx0, out0 ++ "x", blocks0, stack0 ++ [n1], max0⟩, .done)
       else (⟨ctx0, out0, blocks0, stack0 ++ [n1], max0⟩,
         .fail "maximum include depth exceeded"))) :
    compExecuteNode F L (g + 3) ⟨ctx0, out0, blocks0, stack0, max0⟩
      (.includeNode n1 [] none) =
      (if (restLen + 1 + 1) + stack0.length ≤ max0
       then (⟨ctx0, out0 ++ "x", blocks0, stack0, max0⟩, .done)
       else (⟨ctx0, out0, blocks0, stack0, max0⟩,
         .fail "maximum include depth exceeded")) := by
  by_cases hd : max0 ≤ stack0.length
  · rw [if_neg (by omega)]
    simp [compExecuteNode, executeInclude, hmem1, hd]
  · by_cases hC : (restLen + 1 + 1) + stack0.length ≤ max0
    · rw [if_pos hC]
      rw [if_pos (by simp; omega)] at hIH
      simp [compExecuteNode, executeInclude, compExecuteNodes, hmem1, hd,
        hserve, createIncludeContext, hIH, List.dropLast_concat]
    · rw [if_neg hC]
      rw [if_neg (by simp; omega)] at hIH
      simp [compExecuteNode, executeInclude, compExecuteNodes, hmem1, hd,
        hserve, createIncludeContext, hIH, List.dropLast_concat]

/-- C8: evaluating the head include of a strictly linear chain of N
fresh template names against a state whose depth limit is M renders the
chain's final text exactly when N plus the current stack height fits
within M, and otherwise fails with the depth-exceeded error — raised at
the precise link where the stack would first exceed M, with the state
restored either way. In particular, from an empty stack the render
succeeds iff N ≤ M. -/
theorem C8_include_depth_boundary (F : Funcs) (L : Loader) :
    ∀ names : List String, ∀ (st : CompState) (fuel : Nat),
      names ≠ [] →
      chainServes L names → names.Nodup →
      (∀ x ∈ names, x ∉ st.includeStack) →
      2 * names.length + 2 ≤ fuel →
      compExecuteNode F L fuel st (.includeNode (names.headD "") [] none) =
        (if names.length + st.includeStack.length ≤ st.maxIncludeDepth
         then ({ st with out := st.out ++ "x" }, .done)
         else (st, .fail "maximum include depth exceeded")) := by
  intro names
  induction names with
  | nil => intro st fuel hne; exact absurd rfl hne
  | cons n1 tail ih =>
    intro st fuel _ hserve hnodup hdisj hfuel
    obtain ⟨ctx0, out0, blocks0, stack0, max0⟩ := st
    simp only [List.length_cons] at hfuel
    have hmem1 : n1 ∉ stack0 := hdisj n1 (by simp)
    cases tail with
    | nil =>
      obtain ⟨f, rfl⟩ : ∃ f, fuel = f + 4 :=
        ⟨fuel - 4, by simp at hfuel; omega⟩
      exact includeChain_base F L n1 ctx0 out0 blocks0 stack0 max0 f
        hserve hmem1
    | cons n2 rest =>
      simp only [List.length_cons] at hfuel
      obtain ⟨g, rfl⟩ : ∃ g, fuel = g + 3 := ⟨fuel - 3, by omega⟩
      have hnd := List.nodup_cons.mp hnodup
      have hdisj' : ∀ x ∈ n2 :: rest, x ∉ stack0 ++ [n1] := by
        intro x hx
        simp only [List.mem_append, List.mem_singleton]
        push_neg
        exact ⟨hdisj x (List.mem_cons_of_mem _ hx),
          fun hxeq => hnd.1 (hxeq ▸ hx)⟩
      have hIH := ih ⟨ctx0, out0, blocks0, stack0 ++ [n1], max0⟩ (g + 1)
        (by simp) hserve.2 hnd.2 hdisj'
        (by simp only [List.length_cons]; omega)
      exact includeChain_step F L n1 n2 rest.length ctx0 out0 blocks0
        stack0 max0 g hserve.1 hmem1 hIH

theorem C8_include_depth_boundary_witness :
    (compExecuteNode F0 linearLoader 10 ⟨NewContext .vnull, "", [], [], 2⟩
        (.includeNode "a" [] none) =
      (⟨NewContext .vnull, "" ++ "x", [], [], 2⟩, .done)) ∧
    (compExecuteNode F0 linearLoader 10 ⟨NewContext .vnull, "", [], [], 1⟩
        (.includeNode "a" [] none) =
      (⟨NewContext .vnull, "", [], [], 1⟩,
        .fail "maximum include depth exceeded")) := by
  constructor
  · have h := C8_include_depth_boundary F0 linearLoader ["a", "b"]
      ⟨NewContext .vnull, "", [], [], 2⟩ 10 (by simp)
      (by exact ⟨rfl, rfl⟩) (by simp) (by simp) (by simp)
    simpa using h
  · have h := C8_include_depth_boundary F0 linearLoader ["a", "b"]
      ⟨NewContext .vnull, "", [], [], 1⟩ 10 (by simp)
      (by exact ⟨rfl, rfl⟩) (by simp) (by simp) (by simp)
    simpa using h

/-- Helper: appending to the empty string is the identity. -/
theorem string_empty_append (s : String) : "" ++ s = s := rfl

/-- C5: with the two-block parent and a child overriding exactly one
block, rendering through the extends path collects the child's override
table first and then walks the parent's body, each Block node rendering
the collected override when present and its own default otherwise — so
overriding "a" yields the override followed by the parent's "b" default,
overriding "b" yields the parent's "a" default followed by the override,
and a chained extends (child → "mid" → "p") carries the child's
accumulated table up to the top-most ancestor. -/
theorem C5_block_override_inheritance :
    (∀ (F : Funcs) (ctx : Context) (A B O : String),
      ExecuteWithLoader F (parentLoader A B) 20 (childOverriding "a" O) ctx =
        (⟨ctx, O ++ B, [("a", [.textNode O])], [], 100⟩, .done)) ∧
    (∀ (F : Funcs) (ctx : Context) (A B O : String),
      ExecuteWithLoader F (parentLoader A B) 20 (childOverriding "b" O) ctx =
        (⟨ctx, A ++ O, [("b", [.textNode O])], [], 100⟩, .done)) ∧
    (∀ (F : Funcs) (ctx : Context) (A B O : String),
      ExecuteWithLoader F (chainedLoader A B) 20
          ⟨[.extendsNode "mid", .blockNode "a" [.textNode O]]⟩ ctx =
        (⟨ctx, O ++ B, [("a", [.textNode O])], [], 100⟩, .done)) := by
  refine ⟨?_, ?_, ?_⟩ <;>
    intro F ctx A B O <;>
    simp [ExecuteWithLoader, NewCompositionRuntime, findExtendsNode,
      childOverriding, executeWithExtends, parentLoader, chainedLoader,
      parentTwoBlocks, collectBlocks, assocSet, compExecuteNodes,
      compExecuteNode, executeBlock, alookup, executeNode, outputResult,
      string_empty_append]

end Fith
